import Mathlib

/-!
Verification development for the validation / error-taxonomy / rate-limiting
core of the shop application.

The embedding models:
 * `sanitizeInput` and `validateInput` from `app/utils/middleware.js`
   (the typed sanitizer/validator catalog),
 * `validateAndSanitizeRequest` from the same file,
 * `createValidationError`, `createRateLimitError` and
   `validateRequiredFields` from `app/utils/errorHandler.js`,
 * the fixed-window limiter (`checkRateLimit`, `recordSuccess`,
   `recordFailure`) and the per-shop token bucket
   (`ShopifyRateLimiter.waitForAvailability`) from `app/utils/rateLimiter.js`.

Modelling conventions:
 * JavaScript values are modelled by the inductive `JSValue`; array payloads
   use the mutually inductive `JSList` so that the sanitizer's recursion into
   array items is structural (and hence computable by `rfl`).
 * JavaScript numbers are modelled as integers (`Int`); float-only behaviour
   (fractional literals, exponents, NaN payloads) is outside the model, and
   `Option Int` encodes "NaN or an integer" where the code can produce NaN.
   Timestamps (`Date.now()`) are integers in milliseconds.
 * Host-library primitives that the code calls but does not define (the
   regular-expression engine, `new URL`, `JSON.parse`) are parameters,
   collected in the structure `JsEnv`; every theorem below is proved for an
   arbitrary environment.
 * All modelled functions are total Lean functions; in particular the
   sanitizer cannot throw by construction.
-/

mutual
/-- A JavaScript value, as far as the validation core inspects one.  Array
elements use `JSList` (a specialised list) so that functions that recurse
into elements are structural.  Object fields are never recursed into by the
modelled code, so they stay an ordinary association list. -/
inductive JSValue where
  | null
  | undefined
  | bool (b : Bool)
  | num (n : Int)
  | str (s : String)
  | arr (elems : JSList)
  | obj (fields : List (String × JSValue))
inductive JSList where
  | nil
  | cons (hd : JSValue) (tl : JSList)
end
/-- Length of a `JSList` (JavaScript `array.length`). -/
def JSList.length : JSList → Nat
  | .nil => 0
  | .cons _ tl => tl.length + 1

/-- `array.slice(0, n)` on a `JSList`. -/
def JSList.take : Nat → JSList → JSList
  | 0, _ => .nil
  | _, .nil => .nil
  | n + 1, .cons x xs => .cons x (JSList.take n xs)

/-- Convert an ordinary list of values into a `JSList`. -/
def listToJSList : List JSValue → JSList
  | [] => .nil
  | x :: xs => .cons x (listToJSList xs)

/-- `input === null || input === undefined`. -/
def isNullish : JSValue → Bool
  | .null => true
  | .undefined => true
  | _ => false

/-- `value === null || value === undefined || value === ''`
(the emptiness test used by the validator and the required-fields helper). -/
def isEmptyVal : JSValue → Bool
  | .null => true
  | .undefined => true
  | .str s => s == ""
  | _ => false

/-- JavaScript truthiness (`Boolean(input)`), restricted to modelled values. -/
def jsTruthy : JSValue → Bool
  | .null => false
  | .undefined => false
  | .bool b => b
  | .num n => n != 0
  | .str s => s != ""
  | .arr _ => true
  | .obj _ => true

/-- The whitespace class used by `String.prototype.trim` and `\s`
(space, tab, line feed, vertical tab, form feed, carriage return). -/
def isJsSpace (c : Char) : Bool :=
  c.toNat = 32 || c.toNat = 9 || c.toNat = 10 || c.toNat = 11 ||
  c.toNat = 12 || c.toNat = 13

/-- ASCII control characters stripped by the `string` branch
(`[\x00-\x1F\x7F]`). -/
def isCtrlChar (c : Char) : Bool :=
  c.toNat ≤ 31 || c.toNat = 127

/-- Characters stripped by the `name` branch (`[<>\"'&]`). -/
def isNameStrip (c : Char) : Bool :=
  c.toNat = 60 || c.toNat = 62 || c.toNat = 34 || c.toNat = 39 || c.toNat = 38

/-- Characters kept by the `phone` branch (`[\d\+\-\(\)\s]`). -/
def isPhoneKeep (c : Char) : Bool :=
  c.isDigit || c.toNat = 43 || c.toNat = 45 || c.toNat = 40 || c.toNat = 41 ||
  isJsSpace c

/-- Characters kept by the `token` branch (`[\w\-\.]`, i.e. word characters
plus hyphen and dot). -/
def isTokenKeep (c : Char) : Bool :=
  c.isAlphanum || c.toNat = 95 || c.toNat = 45 || c.toNat = 46

/-- ASCII lower-casing of one character (model of
`String.prototype.toLowerCase`; non-ASCII case mappings are out of scope). -/
def asciiLower (c : Char) : Char :=
  if 65 ≤ c.toNat ∧ c.toNat ≤ 90 then Char.ofNat (c.toNat + 32) else c

/-- `toLowerCase` on a character list. -/
def lowerL (l : List Char) : List Char := l.map asciiLower

/-- `trim` on a character list: drop leading and trailing JS whitespace. -/
def trimL (l : List Char) : List Char :=
  ((l.dropWhile isJsSpace).reverse.dropWhile isJsSpace).reverse

mutual
/-- `replace(/\s+/g, ' ')`: collapse every whitespace run to one space.
`collapseWs` scans outside a run, `collapseWsIn` scans inside one. -/
def collapseWs : List Char → List Char
  | [] => []
  | c :: rest =>
    if isJsSpace c then ' ' :: collapseWsIn rest else c :: collapseWs rest
def collapseWsIn : List Char → List Char
  | [] => []
  | c :: rest =>
    if isJsSpace c then collapseWsIn rest else c :: collapseWs rest
end

/-- `String.prototype.trim` on a `String`. -/
def jsTrim (s : String) : String := ⟨trimL s.data⟩

/-- `String.prototype.toLowerCase` on a `String`. -/
def jsLower (s : String) : String := ⟨lowerL s.data⟩

/-- `String.prototype.slice(0, n)` on a `String`. -/
def jsSlice (n : Nat) (s : String) : String := ⟨s.data.take n⟩

mutual
/-- String coercion `String(input)`.  Arrays join their elements with commas
(`Array.prototype.toString`); objects print as `[object Object]`.
(Deviation from the host: `null`/`undefined` elements inside an array would
render as empty; no modelled code path or claim depends on that case.) -/
def jsToString : JSValue → String
  | .null => "null"
  | .undefined => "undefined"
  | .bool b => if b then "true" else "false"
  | .num n => toString n
  | .str s => s
  | .arr xs => jsListToString xs
  | .obj _ => "[object Object]"
def jsListToString : JSList → String
  | .nil => ""
  | .cons x .nil => jsToString x
  | .cons x (.cons y ys) => jsToString x ++ "," ++ jsListToString (.cons y ys)
end

/-- Value of a list of decimal digits. -/
def digitsVal (l : List Char) : Nat :=
  l.foldl (fun acc c => acc * 10 + (c.toNat - 48)) 0

/-- Parse a list of characters that must be entirely decimal digits. -/
def parseAllDigits (l : List Char) : Option Int :=
  if l.isEmpty then none
  else if l.all Char.isDigit then some (digitsVal l) else none

/-- Numeric coercion of a string (`Number(s)`): trim, empty means `0`,
otherwise an optionally signed run of digits; anything else is NaN (`none`).
Fractional and exponent syntax is outside the integer model. -/
def jsStringToNumber (s : String) : Option Int :=
  match trimL s.data with
  | [] => some 0
  | '+' :: rest => parseAllDigits rest
  | '-' :: rest => (parseAllDigits rest).map (fun n => -n)
  | l => parseAllDigits l

/-- Numeric coercion `Number(input)`.  `none` is NaN.  Object-to-primitive
coercion of non-empty arrays and objects is not modelled (`none`). -/
def jsNumber : JSValue → Option Int
  | .null => some 0
  | .undefined => none
  | .bool b => some (if b then 1 else 0)
  | .num n => some n
  | .str s => jsStringToNumber s
  | .arr .nil => some 0
  | .arr _ => none
  | .obj _ => none

/-- `parseInt(String(input), 10)`: skip leading whitespace, optional sign,
then the longest leading digit run; no digits is NaN (`none`). -/
def jsParseInt (v : JSValue) : Option Int :=
  let leadDigits : List Char → Option Int := fun l =>
    let ds := l.takeWhile Char.isDigit
    if ds.isEmpty then none else some (digitsVal ds)
  match (jsToString v).data.dropWhile isJsSpace with
  | '+' :: rest => leadDigits rest
  | '-' :: rest => (leadDigits rest).map (fun n => -n)
  | l => leadDigits l

/-- Host-library primitives the validation core calls but does not define:
the regex engine (`PATTERNS[name].test`), `new URL`, and `JSON.parse`.
All results below hold for an arbitrary environment. -/
structure JsEnv where
  regexTest : String → String → Bool
  parseURL : String → Option String
  jsonParse : String → Option JSValue

/-- A concrete environment used only to instantiate witnesses. -/
def testEnv : JsEnv :=
  { regexTest := fun _ _ => false
  , parseURL := fun _ => none
  , jsonParse := fun _ => none }

/-- Options accepted by `sanitizeInput`.  `Option` encodes a field that may
be absent (`undefined`) in the JavaScript options object. -/
structure SanOptions where
  allowNull : Bool := false
  maxLength : Option Nat := none
  min : Option Int := none
  max : Option Int := none
  itemType : Option String := none
  maxItems : Option Nat := none

/-- Options accepted by `validateInput`. `pattern` is an abstract predicate
(a caller-supplied RegExp). -/
structure ValOptions where
  required : Bool := false
  min : Option Int := none
  max : Option Int := none
  minLength : Option Nat := none
  maxLength : Option Nat := none
  pattern : Option (String → Bool) := none
  minItems : Option Nat := none
  maxItems : Option Nat := none

/-- The `MAX_LENGTHS` table. Types absent from the table give `none`. -/
def maxLengths (ty : String) : Option Nat :=
  if ty = "shortText" then some 100
  else if ty = "mediumText" then some 500
  else if ty = "longText" then some 2000
  else if ty = "name" then some 100
  else if ty = "email" then some 254
  else if ty = "phone" then some 20
  else if ty = "address" then some 200
  else if ty = "city" then some 100
  else if ty = "country" then some 100
  else if ty = "postalCode" then some 20
  else if ty = "token" then some 1000
  else if ty = "description" then some 2000
  else if ty = "title" then some 200
  else if ty = "sku" then some 100
  else if ty = "tag" then some 50
  else none

/-- `options.maxLength || MAX_LENGTHS[type] || MAX_LENGTHS.mediumText`.
`||` is JavaScript truthiness: a present but zero `maxLength` falls through. -/
def getMaxLength (opts : SanOptions) (ty : String) : Nat :=
  match opts.maxLength with
  | some n => if n = 0 then (maxLengths ty).getD 500 else n
  | none => (maxLengths ty).getD 500

/-- `options.maxItems || 100` (JS truthiness). -/
def getMaxItems (opts : SanOptions) : Nat :=
  match opts.maxItems with
  | some n => if n = 0 then 100 else n
  | none => 100

/-- `options.itemType || 'string'` (JS truthiness). -/
def getItemType (opts : SanOptions) : String :=
  match opts.itemType with
  | some t => if t = "" then "string" else t
  | none => t'
where t' : String := "string"

/-- Upper clamp: `if (max !== undefined && num > max) return max`. -/
def clampHi (hi : Option Int) (n : Int) : Int :=
  match hi with
  | some m => if m < n then m else n
  | none => n

/-- Sequential clamping exactly as the `number`/`integer` branches do it:
the `min` test runs first and returns immediately. -/
def clampNum (lo hi : Option Int) (n : Int) : Int :=
  match lo with
  | some m => if n < m then m else clampHi hi n
  | none => clampHi hi n

/-- The `.myshopify.com` suffix appended by the `shopifyDomain` branch. -/
def msSuffix : String := ".myshopify.com"

/-- The `shopifyDomain` branch: trim, lower-case, and append the suffix
when it is not already present (`endsWith`). -/
def toDomain (s : String) : String :=
  if msSuffix.data.isSuffixOf (lowerL (trimL s.data)) then
    ⟨lowerL (trimL s.data)⟩
  else ⟨lowerL (trimL s.data) ++ msSuffix.data⟩

/-- The typed error value (`AppError` from `errorHandler.js`).  `etype` is
the JS field `type`; the creation timestamp and stack capture are real-time
effects outside the model. -/
structure AppError where
  message : String
  etype : String
  statusCode : Int
  severity : String
  context : List (String × JSValue)

/-- Look up a key in an error's context object. -/
def ctxVal (e : AppError) (k : String) : Option JSValue :=
  e.context.lookup k

/-- `createValidationError(field, message, value)`:
VALIDATION kind, HTTP 400, severity low. -/
def createValidationError (field msg : String) (value : JSValue) : AppError :=
  { message := "Validation failed for " ++ field ++ ": " ++ msg
  , etype := "VALIDATION_ERROR"
  , statusCode := 400
  , severity := "low"
  , context := [("field", .str field), ("value", value),
                ("validationMessage", .str msg)] }

/-- `createRateLimitError(retryAfter)`: RATE_LIMIT kind, HTTP 429,
severity medium, context carries `retryAfter`. -/
def createRateLimitError (retryAfter : Option Int) : AppError :=
  { message := "Rate limit exceeded. Please try again later."
  , etype := "RATE_LIMIT_ERROR"
  , statusCode := 429
  , severity := "medium"
  , context := [("retryAfter",
      match retryAfter with | some r => .num r | none => .null)] }

mutual
/-- `sanitizeInput(input, type, options)` from `middleware.js`
(the typed sanitizer catalog), together with its recursion into array items.
The null/undefined check runs before the type dispatch. -/
def sanitizeInput (env : JsEnv) (input : JSValue) (ty : String)
    (opts : SanOptions) : JSValue :=
  if isNullish input then
    (if opts.allowNull then JSValue.null else JSValue.str "")
  else if ty = "string" ∨ ty = "text" then
    .str ⟨((trimL (jsToString input).data).filter
            (fun c => !isCtrlChar c)).take (getMaxLength opts ty)⟩
  else if ty = "name" then
    .str ⟨(collapseWs ((trimL (jsToString input).data).filter
            (fun c => !isNameStrip c))).take 100⟩
  else if ty = "email" then
    .str ⟨(lowerL (trimL (jsToString input).data)).take 254⟩
  else if ty = "phone" then
    .str ⟨(trimL ((jsToString input).data.filter isPhoneKeep)).take 20⟩
  else if ty = "number" then
    match jsNumber input with
    | none => if opts.allowNull then JSValue.null else JSValue.num 0
    | some n => .num (clampNum opts.min opts.max n)
  else if ty = "integer" then
    match jsParseInt input with
    | none => if opts.allowNull then JSValue.null else JSValue.num 0
    | some n => .num (clampNum opts.min opts.max n)
  else if ty = "boolean" then
    match input with
    | .bool b => .bool b
    | .str s => .bool (jsLower s == "true" || jsLower s == "1" ||
                       jsLower s == "yes")
    | v => .bool (jsTruthy v)
  else if ty = "url" then
    match env.parseURL (jsToString input) with
    | some u => .str (jsSlice (getMaxLength opts ty) u)
    | none => if opts.allowNull then JSValue.null else JSValue.str ""
  else if ty = "shopifyDomain" then
    .str (toDomain (jsToString input))
  else if ty = "token" then
    .str ⟨((trimL (jsToString input).data).filter isTokenKeep).take 1000⟩
  else if ty = "array" then
    match input with
    | .arr xs =>
      .arr (JSList.take (getMaxItems opts)
        (sanitizeItems env xs (getItemType opts) opts))
    | _ => .arr .nil
  else if ty = "json" then
    match input with
    | .str s =>
      match env.jsonParse s with
      | some v => v
      | none => if opts.allowNull then JSValue.null else JSValue.obj []
    | v => v
  else
    .str (jsSlice (getMaxLength opts ty) (jsTrim (jsToString input)))
def sanitizeItems (env : JsEnv) (l : JSList) (ty : String)
    (opts : SanOptions) : JSList :=
  match l with
  | .nil => .nil
  | .cons x xs => .cons (sanitizeInput env x ty opts)
                        (sanitizeItems env xs ty opts)
end

/-- JS truthiness on an optional numeric option (`0` counts as absent). -/
def natTruthy (o : Option Nat) : Option Nat :=
  match o with
  | some n => if n = 0 then none else some n
  | none => none

/-- `value.length < n` on a JS value (`undefined < n` is false). -/
def jsLenLt (v : JSValue) (n : Nat) : Bool :=
  match v with
  | .str s => s.length < n
  | .arr xs => xs.length < n
  | _ => false

/-- `validateInput(value, type, options)` from `middleware.js`: the
required/empty short-circuits followed by the per-type checks. -/
def validateInput (env : JsEnv) (value : JSValue) (ty : String)
    (opts : ValOptions) : List String :=
  if opts.required && isEmptyVal value then [ty ++ " is required"]
  else if !opts.required && isEmptyVal value then []
  else if ty = "email" then
    if env.regexTest "email" (jsToString value) then []
    else ["Invalid email format"]
  else if ty = "phone" then
    if env.regexTest "phone" (jsToString value) then []
    else ["Invalid phone number format"]
  else if ty = "url" then
    if env.regexTest "url" (jsToString value) then []
    else ["Invalid URL format"]
  else if ty = "shopifyDomain" then
    if env.regexTest "shopifyDomain" (jsToString value) then []
    else ["Invalid Shopify domain format"]
  else if ty = "shopifyId" then
    if !env.regexTest "shopifyId" (jsToString value) &&
       !env.regexTest "numericId" (jsToString value) then
      ["Invalid Shopify ID format"]
    else []
  else if ty = "token" then
    (if env.regexTest "token" (jsToString value) then []
     else ["Invalid token format"]) ++
    (if jsLenLt value 10 then ["Token must be at least 10 characters long"]
     else [])
  else if ty = "number" then
    match jsNumber value with
    | none => ["Must be a valid number"]
    | some n =>
      (match opts.min with
       | some m => if n < m then ["Must be at least " ++ toString m] else []
       | none => []) ++
      (match opts.max with
       | some m => if m < n then ["Must be at most " ++ toString m] else []
       | none => [])
  else if ty = "string" then
    match value with
    | .str s =>
      (match natTruthy opts.minLength with
       | some n => if s.length < n then
           ["Must be at least " ++ toString n ++ " characters long"] else []
       | none => []) ++
      (match natTruthy opts.maxLength with
       | some n => if n < s.length then
           ["Must be at most " ++ toString n ++ " characters long"] else []
       | none => []) ++
      (match opts.pattern with
       | some p => if p s then [] else ["Invalid format"]
       | none => [])
    | _ => ["Must be a string"]
  else if ty = "array" then
    match value with
    | .arr xs =>
      (match natTruthy opts.minItems with
       | some n => if xs.length < n then
           ["Must have at least " ++ toString n ++ " items"] else []
       | none => []) ++
      (match natTruthy opts.maxItems with
       | some n => if n < xs.length then
           ["Must have at most " ++ toString n ++ " items"] else []
       | none => [])
    | _ => ["Must be an array"]
  else []

/-- One schema entry: declared type, sanitize options, validation rules. -/
structure FieldRule where
  rtype : String
  options : SanOptions := {}
  validation : ValOptions := {}

/-- JavaScript property access `data[field]` (absent gives `undefined`). -/
def lookupD (data : List (String × JSValue)) (f : String) : JSValue :=
  match data.lookup f with
  | some v => v
  | none => .undefined

/-- The loop body of `validateAndSanitizeRequest`: walk the schema entries
in order, sanitize each raw value, validate the sanitized value, and file
the result under `sanitized` or `errors`. -/
def vasrGo (env : JsEnv) (data : List (String × JSValue)) :
    List (String × FieldRule) →
    List (String × JSValue) × List (String × List String)
  | [] => ([], [])
  | (f, r) :: rest =>
    let sv := sanitizeInput env (lookupD data f) r.rtype r.options
    let errs := validateInput env sv r.rtype r.validation
    let acc := vasrGo env data rest
    if errs.isEmpty then ((f, sv) :: acc.1, acc.2)
    else (acc.1, (f, errs) :: acc.2)

/-- Encode a field-to-errors map as the JS value placed in the thrown
error's context. -/
def encodeErrMap (em : List (String × List String)) : JSValue :=
  .obj (em.map (fun fe => (fe.1, .arr (listToJSList (fe.2.map .str)))))

/-- `validateAndSanitizeRequest(data, schema)`: returns the sanitized
record, or throws one aggregated VALIDATION error carrying the whole
per-field error map. -/
def validateAndSanitizeRequest (env : JsEnv) (data : List (String × JSValue))
    (schema : List (String × FieldRule)) :
    Except AppError (List (String × JSValue)) :=
  let acc := vasrGo env data schema
  if acc.2.isEmpty then .ok acc.1
  else .error (createValidationError "request_validation"
    "Request validation failed" (encodeErrMap acc.2))

/-- Sanitized result of one schema field (specification-side shorthand for
the statements below). -/
def fieldResult (env : JsEnv) (data : List (String × JSValue))
    (fr : String × FieldRule) : String × JSValue :=
  (fr.1, sanitizeInput env (lookupD data fr.1) fr.2.rtype fr.2.options)

/-- Validation errors of one schema field, computed on the sanitized value. -/
def fieldErrors (env : JsEnv) (data : List (String × JSValue))
    (fr : String × FieldRule) : List String :=
  validateInput env (sanitizeInput env (lookupD data fr.1) fr.2.rtype
    fr.2.options) fr.2.rtype fr.2.validation

/-- The complete field-to-errors map of a request, in schema order. -/
def errMapOf (env : JsEnv) (data : List (String × JSValue))
    (schema : List (String × FieldRule)) : List (String × List String) :=
  schema.filterMap (fun fr =>
    if (fieldErrors env data fr).isEmpty then none
    else some (fr.1, fieldErrors env data fr))

/-- Field test of `validateRequiredFields`:
`!(field in data) || data[field] === null || === undefined || === ''`. -/
def fieldMissing (data : List (String × JSValue)) (f : String) : Bool :=
  match data.lookup f with
  | none => true
  | some v => isEmptyVal v

/-- The complete list of missing fields, in argument order. -/
def missingOf (data : List (String × JSValue)) (req : List String) :
    List String :=
  req.filter (fieldMissing data)

/-- `missing.join(', ')`. -/
def joinComma : List String → String
  | [] => ""
  | [s] => s
  | s :: rest => s ++ (", " ++ joinComma rest)

/-- `validateRequiredFields(data, requiredFields)` from `errorHandler.js`. -/
def validateRequiredFields (data : List (String × JSValue))
    (req : List String) : Except AppError Bool :=
  let missing := missingOf data req
  if missing.isEmpty then .ok true
  else .error (createValidationError "required_fields"
    ("Missing required fields: " ++ joinComma missing)
    (.arr (listToJSList (missing.map .str))))

/-- One fixed-window limit class configuration. -/
structure RateConfig where
  windowMs : Int
  maxRequests : Nat
  skipSuccessfulRequests : Bool
  skipFailedRequests : Bool

/-- The `api` limit class: 60 requests per minute. -/
def rlApi : RateConfig := ⟨60 * 1000, 60, false, false⟩

/-- The `shopify` limit class: 40 per minute, failures not counted. -/
def rlShopify : RateConfig := ⟨60 * 1000, 40, false, true⟩

/-- The `external` limit class: 100 per minute. -/
def rlExternal : RateConfig := ⟨60 * 1000, 100, false, false⟩

/-- The `auth` limit class: 10 per 15 minutes, successes not counted. -/
def rlAuth : RateConfig := ⟨15 * 60 * 1000, 10, true, false⟩

/-- The `token` limit class: 5 per 5 minutes. -/
def rlToken : RateConfig := ⟨5 * 60 * 1000, 5, false, false⟩

/-- One fixed-window entry of the rate-limit store. -/
structure LimitData where
  count : Int
  resetTime : Int
  firstRequest : Int

/-- The rate-limit info returned on a successful check. -/
structure RateInfo where
  limit : Nat
  remaining : Int
  reset : Int
  retryAfter : Option Int

/-- `Math.ceil(a / b)` on exact arithmetic, for a positive divisor. -/
def jsCeilDiv (a b : Int) : Int := -((-a) / b)

/-- New window creation: `count = 0`, `resetTime = now + windowMs`. -/
def nextWindow (cfg : RateConfig) (now : Int) : LimitData :=
  { count := 0, resetTime := now + cfg.windowMs, firstRequest := now }

/-- Window lookup: reuse the stored entry unless it is absent or expired
(`now > resetTime`), in which case a fresh window starts. -/
def currentWindow (cfg : RateConfig) (st : Option LimitData) (now : Int) :
    LimitData :=
  match st with
  | some d => if d.resetTime < now then nextWindow cfg now else d
  | none => nextWindow cfg now

/-- `checkRateLimit` for one fixed key: reject (count unchanged) when the
window's count has already reached the class maximum, otherwise increment
and return the rate-limit info.  The probabilistic sweep of expired entries
is omitted: it only deletes entries that the lookup would refresh anyway. -/
def checkRateLimit (cfg : RateConfig) (st : Option LimitData) (now : Int) :
    LimitData × Except AppError RateInfo :=
  let limitData := currentWindow cfg st now
  if (cfg.maxRequests : Int) ≤ limitData.count then
    (limitData, .error (createRateLimitError
      (some (jsCeilDiv (limitData.resetTime - now) 1000))))
  else
    let d : LimitData := { limitData with count := limitData.count + 1 }
    (d, .ok
      { limit := cfg.maxRequests
      , remaining := max 0 ((cfg.maxRequests : Int) - d.count)
      , reset := d.resetTime
      , retryAfter :=
          if (cfg.maxRequests : Int) ≤ d.count then
            some (jsCeilDiv (d.resetTime - now) 1000)
          else none })

/-- `recordSuccess`: for classes with `skipSuccessfulRequests`, decrement
the stored count post hoc, but never below zero. -/
def recordSuccess (cfg : RateConfig) (st : Option LimitData) :
    Option LimitData :=
  if cfg.skipSuccessfulRequests then
    match st with
    | some d => if 0 < d.count then some { d with count := d.count - 1 }
                else some d
    | none => none
  else st

/-- `recordFailure`: same as `recordSuccess` for `skipFailedRequests`. -/
def recordFailure (cfg : RateConfig) (st : Option LimitData) :
    Option LimitData :=
  if cfg.skipFailedRequests then
    match st with
    | some d => if 0 < d.count then some { d with count := d.count - 1 }
                else some d
    | none => none
  else st

/-- Boolean success test on an `Except`. -/
def isOkE {ε α : Type} : Except ε α → Bool
  | .ok _ => true
  | .error _ => false

/-- Run a sequence of `checkRateLimit` calls at the given instants,
recording whether every call returned normally. -/
def runChecks (cfg : RateConfig) :
    Option LimitData → List Int → Option LimitData × Bool
  | st, [] => (st, true)
  | st, t :: ts =>
    let r := checkRateLimit cfg st t
    let rest := runChecks cfg (some r.1) ts
    (rest.1, isOkE r.2 && rest.2)

/-- One operation on a fixed-window entry. -/
inductive RLOp where
  | check (now : Int)
  | success
  | failure

/-- Apply one operation to the stored entry. -/
def rlStep (cfg : RateConfig) (st : Option LimitData) : RLOp →
    Option LimitData
  | .check now => some (checkRateLimit cfg st now).1
  | .success => recordSuccess cfg st
  | .failure => recordFailure cfg st

/-- Run a sequence of operations from a given store state. -/
def runRL (cfg : RateConfig) (st : Option LimitData) (ops : List RLOp) :
    Option LimitData :=
  ops.foldl (rlStep cfg) st

/-- Count of the stored entry (an absent entry counts as zero). -/
def countOf : Option LimitData → Int
  | some d => d.count
  | none => 0

/-- One per-shop token bucket. -/
structure Bucket where
  tokens : Int
  lastRefill : Int
  maxTokens : Int
  refillRate : Int

/-- The bucket created on first use: 40 tokens capacity, 2 tokens/second. -/
def freshBucket (now : Int) : Bucket :=
  { tokens := 40, lastRefill := now, maxTokens := 40, refillRate := 2 }

/-- Bucket lookup (`this.buckets.get(key)` with lazy creation). -/
def bucketOf (st : Option Bucket) (now : Int) : Bucket :=
  match st with
  | some b => b
  | none => freshBucket now

/-- Result of one `waitForAvailability` call: the updated bucket, how long
the caller was suspended, and the returned `remainingTokens`/`maxTokens`. -/
structure AcquireResult where
  bucket : Bucket
  waitedMs : Int
  remainingTokens : Int
  maxTokens : Int

/-- Lazy refill: add `floor(elapsedSeconds * refillRate)` tokens capped at
`maxTokens`, updating `lastRefill` only when the floored amount is
positive.  `(x * rate) / 1000` is the exact value of the float expression
`Math.floor((now - lastRefill) / 1000 * refillRate)`. -/
def refillBucket (b : Bucket) (now : Int) : Bucket :=
  let tokensToAdd := ((now - b.lastRefill) * b.refillRate) / 1000
  if 0 < tokensToAdd then
    { b with tokens := min b.maxTokens (b.tokens + tokensToAdd)
           , lastRefill := now }
  else b

/-- `ShopifyRateLimiter.waitForAvailability(shop, requestCost)` for one
bucket: refill, then either wait `ceil((cost - tokens) / refillRate * 1000)`
milliseconds and grant `tokens = min(maxTokens, tokens + cost)` without
re-checking, or deduct the cost immediately. -/
def waitForAvailability (st : Option Bucket) (now : Int) (cost : Int) :
    AcquireResult :=
  let b1 := refillBucket (bucketOf st now) now
  if b1.tokens < cost then
    let waitMs := jsCeilDiv ((cost - b1.tokens) * 1000) b1.refillRate
    let b2 := { b1 with tokens := min b1.maxTokens (b1.tokens + cost) }
    { bucket := b2, waitedMs := waitMs, remainingTokens := b2.tokens
    , maxTokens := b2.maxTokens }
  else
    let b2 := { b1 with tokens := b1.tokens - cost }
    { bucket := b2, waitedMs := 0, remainingTokens := b2.tokens
    , maxTokens := b2.maxTokens }

/-- Modelled from the spec: the token-bucket acquire algorithm as the
specification words it (rational arithmetic, explicit floor and ceiling):
refill `floor(elapsedSeconds * refillRate)` capped at `maxTokens`, update
`lastRefillAt` only when the floored amount is positive; if `tokens < cost`
wait `ceil((cost - tokens) / refillRate * 1000)` milliseconds and then set
`tokens = min(maxTokens, tokens + cost)` without re-checking availability,
otherwise deduct `cost`; return the remaining tokens and the capacity. -/
def specAcquire (st : Option Bucket) (now : Int) (cost : Int) :
    AcquireResult :=
  let b0 := bucketOf st now
  let elapsedSeconds : ℚ := ((now - b0.lastRefill : Int) : ℚ) / 1000
  let refillAmount : Int := ⌊elapsedSeconds * (b0.refillRate : ℚ)⌋
  let b1 := if 0 < refillAmount then
    { b0 with tokens := min b0.maxTokens (b0.tokens + refillAmount)
            , lastRefill := now }
    else b0
  if b1.tokens < cost then
    let waitMs : Int :=
      ⌈(((cost - b1.tokens : Int) : ℚ) / (b1.refillRate : ℚ)) * 1000⌉
    let b2 := { b1 with tokens := min b1.maxTokens (b1.tokens + cost) }
    { bucket := b2, waitedMs := waitMs, remainingTokens := b2.tokens
    , maxTokens := b2.maxTokens }
  else
    let b2 := { b1 with tokens := b1.tokens - cost }
    { bucket := b2, waitedMs := 0, remainingTokens := b2.tokens
    , maxTokens := b2.maxTokens }

/-- Run a sequence of `(now, cost)` acquire calls against one bucket. -/
def runBucket (st : Option Bucket) (calls : List (Int × Int)) :
    Option Bucket :=
  calls.foldl (fun s tc => some (waitForAvailability s tc.1 tc.2).bucket) st

/-- Tokens of the stored bucket (before creation: the fresh value 40). -/
def tokensOf : Option Bucket → Int
  | some b => b.tokens
  | none => 40

/-- Capacity of the stored bucket (before creation: the fresh value 40). -/
def maxTokensOf : Option Bucket → Int
  | some b => b.maxTokens
  | none => 40

/-! ### Helper lemmas -/

theorem toNat_ofNat_of_lt {n : Nat} (h : n < 55296) : (Char.ofNat n).toNat = n := by
  unfold Char.ofNat
  split
  · rfl
  · rename_i hv
    exact absurd (Or.inl h) hv

theorem char_eq_of_toNat {c d : Char} (h : c.toNat = d.toNat) : c = d := by
  apply Char.eq_of_val_eq
  apply UInt32.ext
  exact h

theorem toNat_asciiLower (c : Char) :
    (asciiLower c).toNat =
      if 65 ≤ c.toNat ∧ c.toNat ≤ 90 then c.toNat + 32 else c.toNat := by
  unfold asciiLower
  split
  · rename_i h
    exact toNat_ofNat_of_lt (by omega)
  · rfl

theorem asciiLower_idem (c : Char) : asciiLower (asciiLower c) = asciiLower c := by
  apply char_eq_of_toNat
  simp only [toNat_asciiLower]
  split_ifs <;> omega

theorem isJsSpace_asciiLower (c : Char) :
    isJsSpace (asciiLower c) = isJsSpace c := by
  unfold isJsSpace
  rw [toNat_asciiLower]
  split_ifs with h
  · rw [Bool.eq_iff_iff]
    simp only [Bool.or_eq_true, decide_eq_true_eq]
    omega
  · rfl

theorem dropWhile_head_not (p : Char → Bool) :
    ∀ (l : List Char) (c : Char), (l.dropWhile p).head? = some c → p c = false := by
  intro l
  induction l with
  | nil =>
    intro c h
    simp [List.dropWhile] at h
  | cons a as ih =>
    intro c h
    rw [List.dropWhile_cons] at h
    split at h
    · exact ih c h
    · rename_i hpa
      simp only [List.head?_cons, Option.some.injEq] at h
      subst h
      simpa using hpa

theorem trimL_head (l : List Char) (c : Char) (h : (trimL l).head? = some c) :
    isJsSpace c = false := by
  have hpre : trimL l <+: l.dropWhile isJsSpace := by
    unfold trimL
    rw [← List.reverse_suffix, List.reverse_reverse]
    exact List.dropWhile_suffix isJsSpace
  obtain ⟨t, ht⟩ := hpre
  have hY : (l.dropWhile isJsSpace).head? = some c := by
    rw [← ht]
    cases hcase : trimL l with
    | nil => rw [hcase] at h; simp at h
    | cons x xs =>
      rw [hcase] at h
      simpa using h
  exact dropWhile_head_not isJsSpace l c hY

theorem trimL_getLast (l : List Char) (c : Char)
    (h : (trimL l).getLast? = some c) : isJsSpace c = false := by
  unfold trimL at h
  rw [List.getLast?_reverse] at h
  exact dropWhile_head_not isJsSpace (l.dropWhile isJsSpace).reverse c h

theorem dropWhile_eq_self_of_head (p : Char → Bool) (l : List Char)
    (h : ∀ c, l.head? = some c → p c = false) : l.dropWhile p = l := by
  cases l with
  | nil => rfl
  | cons a as =>
    rw [List.dropWhile_cons, if_neg]
    simp [h a rfl]

theorem trimL_eq_self (l : List Char)
    (hh : ∀ c, l.head? = some c → isJsSpace c = false)
    (hl : ∀ c, l.getLast? = some c → isJsSpace c = false) : trimL l = l := by
  unfold trimL
  rw [dropWhile_eq_self_of_head isJsSpace l hh]
  rw [dropWhile_eq_self_of_head isJsSpace l.reverse
    (fun c hc => hl c (by rwa [List.head?_reverse] at hc))]
  exact List.reverse_reverse l

theorem lowerL_idem (l : List Char) : lowerL (lowerL l) = lowerL l := by
  induction l with
  | nil => rfl
  | cons a as ih =>
    unfold lowerL at *
    simp only [List.map_cons, List.cons.injEq]
    exact ⟨asciiLower_idem a, ih⟩

theorem head_lowerL (l : List Char) :
    (lowerL l).head? = l.head?.map asciiLower := List.head?_map asciiLower l

theorem getLast_lowerL (l : List Char) :
    (lowerL l).getLast? = l.getLast?.map asciiLower := by
  unfold lowerL
  rw [← List.head?_reverse, ← List.map_reverse, List.head?_map,
    List.head?_reverse]

/-! ### C1 -/

/-- C1 (counterexample): as stated, the claim is false: the sanitizer's
null/undefined check runs before the type dispatch, so `sanitize(null,
'number')` returns the empty string, not the number `0`. -/
theorem sanitizeInput_null_number_counterexample :
    sanitizeInput testEnv JSValue.null "number" {} = JSValue.str "" ∧
    JSValue.str "" ≠ JSValue.num 0 :=
  ⟨rfl, fun h => JSValue.noConfusion h⟩

/-- C1 (amended): for every type in the catalog and every options record,
sanitize of null or undefined input returns `""`, or `null` when
`options.allowNull` is set, uniformly for all types; and sanitize never
throws (it is a total function by construction). -/
theorem sanitizeInput_nullish_spec (env : JsEnv) (ty : String)
    (opts : SanOptions) (v : JSValue) (h : isNullish v = true) :
    sanitizeInput env v ty opts =
      (if opts.allowNull then JSValue.null else JSValue.str "") := by
  cases v <;> first
    | rfl
    | exact Bool.noConfusion h

/-- C1 (witness): the amended theorem applied at `null` input. -/
theorem sanitizeInput_nullish_spec_witness :
    sanitizeInput testEnv JSValue.null "string" {} = JSValue.str "" ∧
    sanitizeInput testEnv JSValue.undefined "json" { allowNull := true } =
      JSValue.null := by
  constructor
  · have h := sanitizeInput_nullish_spec testEnv "string" {} JSValue.null rfl
    simpa using h
  · have h := sanitizeInput_nullish_spec testEnv "json" { allowNull := true }
      JSValue.undefined rfl
    simpa using h

/-! ### C6 -/

/-- C6: with `required = true` and an empty/null/undefined value, validate
returns exactly one error whose message contains "required" and runs no
further checks; with `required` unset and an empty value it returns the
empty list, skipping all type-specific checks. -/
theorem validateInput_required_spec (env : JsEnv) (ty : String)
    (opts : ValOptions) (v : JSValue) (h : isEmptyVal v = true) :
    (opts.required = true →
      validateInput env v ty opts = [ty ++ " is required"] ∧
      "required".data <:+: (ty ++ " is required").data) ∧
    (opts.required = false → validateInput env v ty opts = []) := by
  constructor
  · intro hr
    constructor
    · unfold validateInput
      rw [hr, h]
      rfl
    · refine ⟨ty.data ++ " is ".data, [], ?_⟩
      simp only [List.append_nil, String.data_append, List.append_assoc]
      rfl
  · intro hr
    unfold validateInput
    rw [hr, h]
    rfl

/-- C6 (witness): the theorem applied at the spec's concrete examples. -/
theorem validateInput_required_spec_witness :
    validateInput testEnv (JSValue.str "") "string" { required := true } =
      ["string is required"] ∧
    validateInput testEnv (JSValue.str "") "string" {} = [] := by
  constructor
  · exact ((validateInput_required_spec testEnv "string" { required := true }
      (JSValue.str "") rfl).1 rfl).1
  · exact (validateInput_required_spec testEnv "string" {}
      (JSValue.str "") rfl).2 rfl

/-! ### C7 -/

/-- C7: the `number` branch parses the input numerically, returns `0` for
non-numeric input (`null` when `allowNull` is set), and clamps to the
supplied `min`/`max` bounds; in particular the three concrete examples of
the specification hold. -/
theorem sanitizeInput_number_spec (env : JsEnv) (opts : SanOptions)
    (v : JSValue) (h : isNullish v = false) :
    sanitizeInput env v "number" opts =
      (match jsNumber v with
       | none => if opts.allowNull then JSValue.null else JSValue.num 0
       | some n => JSValue.num (clampNum opts.min opts.max n)) ∧
    sanitizeInput env (JSValue.str "123") "number"
      { min := some 100, max := some 200 } = JSValue.num 123 ∧
    sanitizeInput env (JSValue.str "50") "number" { min := some 100 } =
      JSValue.num 100 ∧
    sanitizeInput env (JSValue.str "300") "number" { max := some 200 } =
      JSValue.num 200 := by
    refine ⟨?_, rfl, rfl, rfl⟩
    cases v <;> first
      | rfl
      | exact Bool.noConfusion h

/-- C7 (witness): the theorem applied at the concrete input `'50'`. -/
theorem sanitizeInput_number_spec_witness :
    sanitizeInput testEnv (JSValue.str "50") "number" { min := some 100 } =
      JSValue.num 100 :=
  (sanitizeInput_number_spec testEnv { min := some 100 }
    (JSValue.str "50") rfl).2.2.1

/-! ### C9 -/

theorem joinComma_mem_infix :
    ∀ (l : List String) (f : String), f ∈ l →
      f.data <:+: (joinComma l).data := by
  intro l
  induction l with
  | nil => intro f hf; exact absurd hf (List.not_mem_nil f)
  | cons s rest ih =>
    intro f hf
    cases rest with
    | nil =>
      have : f = s := by simpa using hf
      subst this
      exact List.infix_refl f.data
    | cons r rs =>
      have hj : joinComma (s :: r :: rs) = s ++ (", " ++ joinComma (r :: rs)) :=
        rfl
      rcases List.mem_cons.mp hf with hfs | hfr
      · subst hfs
        refine ⟨[], (", " ++ joinComma (r :: rs)).data, ?_⟩
        rw [hj]
        simp [String.data_append]
      · obtain ⟨a, b, hab⟩ := ih f hfr
        refine ⟨s.data ++ (", ".data ++ a), b, ?_⟩
        rw [hj]
        simp only [String.data_append, List.append_assoc] at hab ⊢
        rw [hab]

theorem infix_append_left {l m : List Char} (pre : List Char)
    (h : l <:+: m) : l <:+: pre ++ m := by
  obtain ⟨a, b, hab⟩ := h
  exact ⟨pre ++ a, b, by rw [← hab]; simp [List.append_assoc]⟩

/-- C9: the required-fields helper throws exactly when at least one listed
field is absent, null, undefined, or the empty string; the single
VALIDATION error it throws carries a message listing every missing field;
with nothing missing it returns `true` without throwing. -/
theorem validateRequiredFields_spec (data : List (String × JSValue))
    (req : List String) :
    ((∃ f ∈ req, fieldMissing data f = true) ↔ missingOf data req ≠ []) ∧
    (missingOf data req = [] →
      validateRequiredFields data req = .ok true) ∧
    (missingOf data req ≠ [] →
      ∃ e, validateRequiredFields data req = .error e ∧
        e.etype = "VALIDATION_ERROR" ∧ e.statusCode = 400 ∧
        e.message = "Validation failed for " ++ "required_fields" ++ ": " ++
          ("Missing required fields: " ++ joinComma (missingOf data req)) ∧
        ∀ f ∈ missingOf data req, f.data <:+: e.message.data) := by
  refine ⟨?_, ?_, ?_⟩
  · constructor
    · rintro ⟨f, hf, hmiss⟩ hnil
      rw [missingOf, List.filter_eq_nil] at hnil
      exact absurd hmiss (by simpa using hnil f hf)
    · intro hne
      rcases hm : missingOf data req with _ | ⟨f, rest⟩
      · exact absurd hm hne
      · have hf : f ∈ missingOf data req := by
          rw [hm]; exact List.mem_cons_self f rest
        rw [missingOf, List.mem_filter] at hf
        exact ⟨f, hf.1, hf.2⟩
  · intro h
    unfold validateRequiredFields
    rw [h]
    rfl
  · intro h
    refine ⟨createValidationError "required_fields"
      ("Missing required fields: " ++ joinComma (missingOf data req))
      (.arr (listToJSList ((missingOf data req).map .str))),
      ?_, rfl, rfl, rfl, ?_⟩
    · rcases hm : missingOf data req with _ | ⟨f0, rest0⟩
      · exact absurd hm h
      · unfold validateRequiredFields
        rw [hm]
        rfl
    · intro f hf
      have h1 : f.data <:+: (joinComma (missingOf data req)).data :=
        joinComma_mem_infix (missingOf data req) f hf
      have h2 : f.data <:+:
          ("Missing required fields: " ++
            joinComma (missingOf data req)).data := by
        rw [String.data_append]
        exact infix_append_left _ h1
      show f.data <:+:
        (("Validation failed for " ++ "required_fields" ++ ": ") ++
          ("Missing required fields: " ++
            joinComma (missingOf data req))).data
      rw [String.data_append]
      exact infix_append_left _ h2

/-- C9 (witness): the theorem applied at a record missing the field `b`. -/
theorem validateRequiredFields_spec_witness :
    validateRequiredFields [("a", JSValue.str "x")] ["a"] = .ok true ∧
    ∃ e, validateRequiredFields [("a", JSValue.str "x"), ("b", JSValue.null)]
        ["a", "b", "c"] = .error e ∧
      e.etype = "VALIDATION_ERROR" ∧
      ∀ f ∈ missingOf [("a", JSValue.str "x"), ("b", JSValue.null)]
        ["a", "b", "c"], f.data <:+: e.message.data := by
  constructor
  · exact (validateRequiredFields_spec [("a", JSValue.str "x")] ["a"]).2.1 rfl
  · obtain ⟨e, h1, h2, _, _, h5⟩ := (validateRequiredFields_spec
      [("a", JSValue.str "x"), ("b", JSValue.null)] ["a", "b", "c"]).2.2
      (by decide)
    exact ⟨e, h1, h2, h5⟩

/-! ### C10 -/

theorem currentWindow_some (cfg : RateConfig) (d : LimitData) (now : Int) :
    currentWindow cfg (some d) now =
      if d.resetTime < now then nextWindow cfg now else d := rfl

theorem currentWindow_count_bounds (cfg : RateConfig) (st : Option LimitData)
    (now : Int) (h : 0 ≤ countOf st ∧ countOf st ≤ (cfg.maxRequests : Int)) :
    0 ≤ (currentWindow cfg st now).count ∧
    (currentWindow cfg st now).count ≤ (cfg.maxRequests : Int) := by
  cases st with
  | none => exact ⟨le_refl 0, Int.natCast_nonneg cfg.maxRequests⟩
  | some d =>
    rw [currentWindow_some]
    by_cases hd : d.resetTime < now
    · rw [if_pos hd]
      exact ⟨le_refl 0, Int.natCast_nonneg cfg.maxRequests⟩
    · rw [if_neg hd]
      exact h

theorem checkRateLimit_eq (cfg : RateConfig) (st : Option LimitData)
    (now : Int) :
    checkRateLimit cfg st now =
      (if (cfg.maxRequests : Int) ≤ (currentWindow cfg st now).count then
        (currentWindow cfg st now, .error (createRateLimitError
          (some (jsCeilDiv ((currentWindow cfg st now).resetTime - now) 1000))))
      else
        ({ currentWindow cfg st now with
            count := (currentWindow cfg st now).count + 1 },
         .ok { limit := cfg.maxRequests
             , remaining := max 0 ((cfg.maxRequests : Int) -
                 ((currentWindow cfg st now).count + 1))
             , reset := (currentWindow cfg st now).resetTime
             , retryAfter :=
                 if (cfg.maxRequests : Int) ≤
                     (currentWindow cfg st now).count + 1 then
                   some (jsCeilDiv
                     ((currentWindow cfg st now).resetTime - now) 1000)
                 else none })) := rfl

theorem checkRateLimit_reject (cfg : RateConfig) (st : Option LimitData)
    (now : Int)
    (h : (cfg.maxRequests : Int) ≤ (currentWindow cfg st now).count) :
    checkRateLimit cfg st now =
      (currentWindow cfg st now, .error (createRateLimitError
        (some (jsCeilDiv ((currentWindow cfg st now).resetTime - now)
          1000)))) := by
  rw [checkRateLimit_eq, if_pos h]

theorem checkRateLimit_accept (cfg : RateConfig) (st : Option LimitData)
    (now : Int)
    (h : (currentWindow cfg st now).count < (cfg.maxRequests : Int)) :
    checkRateLimit cfg st now =
      ({ currentWindow cfg st now with
          count := (currentWindow cfg st now).count + 1 },
       .ok { limit := cfg.maxRequests
           , remaining := max 0 ((cfg.maxRequests : Int) -
               ((currentWindow cfg st now).count + 1))
           , reset := (currentWindow cfg st now).resetTime
           , retryAfter :=
               if (cfg.maxRequests : Int) ≤
                   (currentWindow cfg st now).count + 1 then
                 some (jsCeilDiv
                   ((currentWindow cfg st now).resetTime - now) 1000)
               else none }) := by
  rw [checkRateLimit_eq, if_neg (not_le.mpr h)]

theorem rlStep_inv (cfg : RateConfig) (st : Option LimitData) (op : RLOp)
    (h : 0 ≤ countOf st ∧ countOf st ≤ (cfg.maxRequests : Int)) :
    0 ≤ countOf (rlStep cfg st op) ∧
    countOf (rlStep cfg st op) ≤ (cfg.maxRequests : Int) := by
  cases op with
  | check now =>
    obtain ⟨hw1, hw2⟩ := currentWindow_count_bounds cfg st now h
    rcases le_or_lt (cfg.maxRequests : Int) (currentWindow cfg st now).count
      with hle | hlt
    · have hs : rlStep cfg st (.check now) =
          some (currentWindow cfg st now) := by
        simp only [rlStep]
        rw [checkRateLimit_reject cfg st now hle]
      rw [hs]
      exact ⟨hw1, hw2⟩
    · have hs : rlStep cfg st (.check now) =
          some { currentWindow cfg st now with
            count := (currentWindow cfg st now).count + 1 } := by
        simp only [rlStep]
        rw [checkRateLimit_accept cfg st now hlt]
      rw [hs]
      simp only [countOf]
      constructor <;> omega
  | success =>
    cases st with
    | none =>
      have hs : rlStep cfg none RLOp.success =
          (if cfg.skipSuccessfulRequests then none else none) := rfl
      rw [hs]
      split_ifs <;> exact h
    | some d =>
      have hs : rlStep cfg (some d) RLOp.success =
          (if cfg.skipSuccessfulRequests then
            (if 0 < d.count then some { d with count := d.count - 1 }
             else some d)
          else some d) := rfl
      rw [hs]
      simp only [countOf] at h
      split_ifs <;> simp only [countOf] <;> omega
  | failure =>
    cases st with
    | none =>
      have hs : rlStep cfg none RLOp.failure =
          (if cfg.skipFailedRequests then none else none) := rfl
      rw [hs]
      split_ifs <;> exact h
    | some d =>
      have hs : rlStep cfg (some d) RLOp.failure =
          (if cfg.skipFailedRequests then
            (if 0 < d.count then some { d with count := d.count - 1 }
             else some d)
          else some d) := rfl
      rw [hs]
      simp only [countOf] at h
      split_ifs <;> simp only [countOf] <;> omega

/-- C10: over any sequence of `checkRateLimit` / `recordSuccess` /
`recordFailure` operations starting from the empty store, the window count
stays between `0` and the class's configured `maxRequests`: the post-hoc
decrements never push it below zero and the pre-increment check never lets
it exceed the maximum. -/
theorem rateLimit_count_invariant (cfg : RateConfig) (ops : List RLOp) :
    0 ≤ countOf (runRL cfg none ops) ∧
    countOf (runRL cfg none ops) ≤ (cfg.maxRequests : Int) := by
  suffices h : ∀ (st : Option LimitData),
      0 ≤ countOf st ∧ countOf st ≤ (cfg.maxRequests : Int) →
      0 ≤ countOf (runRL cfg st ops) ∧
      countOf (runRL cfg st ops) ≤ (cfg.maxRequests : Int) by
    exact h none ⟨le_refl 0, Int.natCast_nonneg cfg.maxRequests⟩
  induction ops with
  | nil => intro st h; exact h
  | cons op ops ih =>
    intro st h
    have h1 := rlStep_inv cfg st op h
    unfold runRL at *
    rw [List.foldl_cons]
    exact ih (rlStep cfg st op) h1

/-! ### C4 -/

theorem waitForAvailability_inv (st : Option Bucket) (now cost : Int)
    (hc : 0 ≤ cost)
    (h : 0 ≤ tokensOf st ∧ tokensOf st ≤ maxTokensOf st) :
    0 ≤ (waitForAvailability st now cost).bucket.tokens ∧
    (waitForAvailability st now cost).bucket.tokens ≤
      (waitForAvailability st now cost).bucket.maxTokens := by
  have hb : 0 ≤ (bucketOf st now).tokens ∧
      (bucketOf st now).tokens ≤ (bucketOf st now).maxTokens := by
    cases st with
    | none => exact ⟨by norm_num [bucketOf, freshBucket],
        by norm_num [bucketOf, freshBucket]⟩
    | some b => exact h
  have hr : 0 ≤ (refillBucket (bucketOf st now) now).tokens ∧
      (refillBucket (bucketOf st now) now).tokens ≤
        (refillBucket (bucketOf st now) now).maxTokens := by
    by_cases hadd : 0 <
        ((now - (bucketOf st now).lastRefill) * (bucketOf st now).refillRate)
          / 1000
    · have he : refillBucket (bucketOf st now) now =
          { bucketOf st now with
              tokens := min (bucketOf st now).maxTokens
                ((bucketOf st now).tokens +
                  ((now - (bucketOf st now).lastRefill) *
                    (bucketOf st now).refillRate) / 1000)
            , lastRefill := now } := by
        unfold refillBucket
        rw [if_pos hadd]
      rw [he]
      dsimp only
      omega
    · have he : refillBucket (bucketOf st now) now = bucketOf st now := by
        unfold refillBucket
        rw [if_neg hadd]
      rw [he]
      exact hb
  obtain ⟨hr1, hr2⟩ := hr
  by_cases hlt : (refillBucket (bucketOf st now) now).tokens < cost
  · have he : (waitForAvailability st now cost).bucket =
        { refillBucket (bucketOf st now) now with
            tokens := min (refillBucket (bucketOf st now) now).maxTokens
              ((refillBucket (bucketOf st now) now).tokens + cost) } := by
      unfold waitForAvailability
      rw [if_pos hlt]
    rw [he]
    dsimp only
    omega
  · have he : (waitForAvailability st now cost).bucket =
        { refillBucket (bucketOf st now) now with
            tokens := (refillBucket (bucketOf st now) now).tokens - cost } := by
      unfold waitForAvailability
      rw [if_neg hlt]
    rw [he]
    dsimp only
    omega

/-- C4: for every sequence of sequential `waitForAvailability` calls with
non-negative cost, starting before the bucket is first created, the bucket
invariant `0 ≤ tokens ≤ maxTokens` holds before and after each call (the
state after any prefix of the call list satisfies it). -/
theorem bucket_tokens_invariant (calls : List (Int × Int))
    (hc : ∀ tc ∈ calls, 0 ≤ tc.2) :
    0 ≤ tokensOf (runBucket none calls) ∧
    tokensOf (runBucket none calls) ≤ maxTokensOf (runBucket none calls) := by
  suffices h : ∀ (st : Option Bucket),
      0 ≤ tokensOf st ∧ tokensOf st ≤ maxTokensOf st →
      0 ≤ tokensOf (runBucket st calls) ∧
      tokensOf (runBucket st calls) ≤ maxTokensOf (runBucket st calls) by
    exact h none ⟨by norm_num [tokensOf], by norm_num [tokensOf, maxTokensOf]⟩
  induction calls with
  | nil => intro st h; exact h
  | cons tc calls ih =>
    intro st h
    have h1 := waitForAvailability_inv st tc.1 tc.2
      (hc tc (List.mem_cons_self tc calls)) h
    unfold runBucket at *
    rw [List.foldl_cons]
    exact ih (fun tc' htc' => hc tc' (List.mem_cons_of_mem tc htc'))
      (some (waitForAvailability st tc.1 tc.2).bucket) h1

/-- C4 (witness): the invariant theorem applied to a concrete call list
that exercises both the waiting branch and the immediate branch. -/
theorem bucket_tokens_invariant_witness :
    0 ≤ tokensOf (runBucket none [(0, 1), (100, 50), (30000, 2)]) ∧
    tokensOf (runBucket none [(0, 1), (100, 50), (30000, 2)]) ≤
      maxTokensOf (runBucket none [(0, 1), (100, 50), (30000, 2)]) :=
  bucket_tokens_invariant [(0, 1), (100, 50), (30000, 2)] (by decide)

/-! ### C2 -/

theorem jsCeilDiv_pos {a : Int} (h : 0 < a) : 0 < jsCeilDiv a 1000 := by
  unfold jsCeilDiv
  omega

theorem runChecks_all_ok (cfg : RateConfig) (ts : List Int) :
    ∀ (d : LimitData), (∀ t ∈ ts, t ≤ d.resetTime) →
      d.count + ts.length ≤ (cfg.maxRequests : Int) →
      runChecks cfg (some d) ts =
        (some { d with count := d.count + ts.length }, true) := by
  induction ts with
  | nil =>
    intro d _ _
    simp [runChecks]
  | cons t ts ih =>
    intro d hts hcnt
    push_cast [List.length_cons] at hcnt
    have hcw : currentWindow cfg (some d) t = d := by
      rw [currentWindow_some,
        if_neg (by have := hts t (List.mem_cons_self t ts); omega)]
    have hacc := checkRateLimit_accept cfg (some d) t
      (by rw [hcw]; omega)
    rw [hcw] at hacc
    simp only [runChecks]
    rw [hacc]
    dsimp only
    have hih := ih { d with count := d.count + 1 }
      (by intro t' ht'; exact hts t' (List.mem_cons_of_mem t ht'))
      (by dsimp only; omega)
    rw [hih]
    dsimp only [isOkE]
    have hcount : d.count + 1 + (ts.length : Int) =
        d.count + ((ts.length + 1 : Nat) : Int) := by push_cast; ring
    rw [hcount]
    simp

/-- C2: for a fixed key and a window in which no record operations happen,
the first `maxRequests` calls to `checkRateLimit` all return normally; the
`(maxRequests + 1)`-th call, made strictly inside the window, throws a
RATE_LIMIT error whose context carries `retryAfter > 0` without changing
the count; and one further call made after the instant passes the window's
reset time returns normally again. -/
theorem checkRateLimit_fixed_window_spec (cfg : RateConfig) (t0 : Int)
    (ts : List Int) (trej tnext : Int)
    (hlen : ts.length + 1 = cfg.maxRequests)
    (hts : ∀ t ∈ ts, t ≤ t0 + cfg.windowMs)
    (hrej : trej < t0 + cfg.windowMs)
    (hnext : t0 + cfg.windowMs < tnext) :
    (runChecks cfg none (t0 :: ts)).2 = true ∧
    (∃ e r, (checkRateLimit cfg (runChecks cfg none (t0 :: ts)).1 trej).2 =
        .error e ∧
      e.etype = "RATE_LIMIT_ERROR" ∧ e.statusCode = 429 ∧
      ctxVal e "retryAfter" = some (.num r) ∧ 0 < r) ∧
    isOkE (checkRateLimit cfg
      (some (checkRateLimit cfg (runChecks cfg none (t0 :: ts)).1 trej).1)
      tnext).2 = true := by
  have hmax : 0 < cfg.maxRequests := by omega
  -- the first call creates the window and increments the count to 1
  have hcw0 : currentWindow cfg none t0 = nextWindow cfg t0 := rfl
  have hacc0 := checkRateLimit_accept cfg none t0
    (by rw [hcw0]
        show (0 : Int) < (cfg.maxRequests : Int)
        exact_mod_cast hmax)
  rw [hcw0] at hacc0
  have hd1 : ({ nextWindow cfg t0 with
      count := (nextWindow cfg t0).count + 1 } : LimitData) =
      ⟨1, t0 + cfg.windowMs, t0⟩ := rfl
  -- the remaining maxRequests - 1 calls all succeed
  have hrest := runChecks_all_ok cfg ts ⟨1, t0 + cfg.windowMs, t0⟩
    (by intro t ht; exact hts t ht)
    (by show (1 : Int) + (ts.length : Int) ≤ (cfg.maxRequests : Int)
        push_cast [← hlen]; omega)
  have hrun : runChecks cfg none (t0 :: ts) =
      (some ⟨1 + ts.length, t0 + cfg.windowMs, t0⟩, true) := by
    simp only [runChecks]
    rw [hacc0]
    dsimp only
    rw [hd1, hrest]
    dsimp only [isOkE]
    simp
  -- the (maxRequests + 1)-th call throws with positive retryAfter
  have hfull : ((cfg.maxRequests : Int)) ≤ (1 + (ts.length : Int)) := by
    push_cast [← hlen]; omega
  have hcwr : currentWindow cfg
      (some (⟨1 + ts.length, t0 + cfg.windowMs, t0⟩ : LimitData)) trej =
      (⟨1 + ts.length, t0 + cfg.windowMs, t0⟩ : LimitData) := by
    rw [currentWindow_some, if_neg (by dsimp only; omega)]
  have hrej2 := checkRateLimit_reject cfg
    (some (⟨1 + ts.length, t0 + cfg.windowMs, t0⟩ : LimitData)) trej
    (by rw [hcwr]; exact hfull)
  rw [hcwr] at hrej2
  refine ⟨by rw [hrun], ?_, ?_⟩
  · rw [hrun]
    dsimp only
    rw [hrej2]
    refine ⟨_, jsCeilDiv ((t0 + cfg.windowMs) - trej) 1000, rfl, rfl, rfl,
      rfl, ?_⟩
    exact jsCeilDiv_pos (by omega)
  · rw [hrun]
    dsimp only
    rw [hrej2]
    dsimp only
    -- after the rejection the entry is unchanged; past the reset time the
    -- window is recreated and the call succeeds
    have hcwn : currentWindow cfg
        (some (⟨1 + ts.length, t0 + cfg.windowMs, t0⟩ : LimitData)) tnext =
        nextWindow cfg tnext := by
      rw [currentWindow_some, if_pos (by dsimp only; omega)]
    have hacc2 := checkRateLimit_accept cfg
      (some (⟨1 + ts.length, t0 + cfg.windowMs, t0⟩ : LimitData)) tnext
      (by rw [hcwn]
          show (0 : Int) < (cfg.maxRequests : Int)
          exact_mod_cast hmax)
    rw [hacc2]
    rfl

/-- C2 (witness): the theorem applied to the `token` class (five requests
per five minutes): five calls succeed, the sixth throws with positive
`retryAfter`, and a call after the window reset succeeds. -/
theorem checkRateLimit_fixed_window_spec_witness :
    (runChecks rlToken none (0 :: [1, 2, 3, 4])).2 = true ∧
    (∃ e r, (checkRateLimit rlToken
        (runChecks rlToken none (0 :: [1, 2, 3, 4])).1 5).2 = .error e ∧
      e.etype = "RATE_LIMIT_ERROR" ∧ e.statusCode = 429 ∧
      ctxVal e "retryAfter" = some (.num r) ∧ 0 < r) ∧
    isOkE (checkRateLimit rlToken
      (some (checkRateLimit rlToken
        (runChecks rlToken none (0 :: [1, 2, 3, 4])).1 5).1)
      300001).2 = true :=
  checkRateLimit_fixed_window_spec rlToken 0 [1, 2, 3, 4] 5 300001
    (by decide) (by decide) (by decide) (by decide)

/-! ### C5 -/

theorem vasrGo_eq (env : JsEnv) (data : List (String × JSValue)) :
    ∀ (schema : List (String × FieldRule)),
      vasrGo env data schema =
        ((schema.filter (fun fr => (fieldErrors env data fr).isEmpty)).map
          (fieldResult env data),
         errMapOf env data schema) := by
  intro schema
  induction schema with
  | nil => rfl
  | cons fr rest ih =>
    obtain ⟨f, r⟩ := fr
    simp only [vasrGo]
    rw [ih]
    simp only [errMapOf, List.filterMap_cons, List.filter_cons,
      fieldErrors, fieldResult]
    dsimp only
    split_ifs with he
    · simp [he, fieldResult, fieldErrors]
    · simp [he, fieldResult, fieldErrors]

theorem vasrGo_congr (env : JsEnv) :
    ∀ (schema : List (String × FieldRule))
      (data data' : List (String × JSValue)),
      (∀ f ∈ schema.map Prod.fst, lookupD data f = lookupD data' f) →
      vasrGo env data schema = vasrGo env data' schema := by
  intro schema
  induction schema with
  | nil => intro data data' _; rfl
  | cons fr rest ih =>
    intro data data' h
    obtain ⟨f, r⟩ := fr
    have hf : lookupD data f = lookupD data' f := by
      exact h f (by simp)
    simp only [vasrGo]
    rw [hf, ih data data'
      (fun g hg => h g
        (by simp only [List.map_cons, List.mem_cons]; exact Or.inr hg))]

/-- C5: `validateAndSanitizeRequest` considers exactly the schema's fields
(the result depends only on the data's values at schema fields, so extra
input fields are ignored); each raw value is sanitized and the sanitized
value is validated; when no field has errors it returns the record of
sanitized values for all schema fields, and when some field has errors it
fails with a single VALIDATION error whose context carries the complete
field-to-error-list map and returns no sanitized output. -/
theorem validateAndSanitizeRequest_spec (env : JsEnv)
    (data : List (String × JSValue)) (schema : List (String × FieldRule)) :
    (errMapOf env data schema = [] →
      validateAndSanitizeRequest env data schema =
        .ok (schema.map (fieldResult env data))) ∧
    (errMapOf env data schema ≠ [] →
      ∃ e, validateAndSanitizeRequest env data schema = .error e ∧
        e.etype = "VALIDATION_ERROR" ∧ e.statusCode = 400 ∧
        ctxVal e "value" = some (encodeErrMap (errMapOf env data schema))) ∧
    (∀ data', (∀ f ∈ schema.map Prod.fst, lookupD data f = lookupD data' f) →
      validateAndSanitizeRequest env data schema =
        validateAndSanitizeRequest env data' schema) := by
  refine ⟨?_, ?_, ?_⟩
  · intro h
    have hall : ∀ fr ∈ schema, (fieldErrors env data fr).isEmpty = true := by
      intro fr hfr
      have hz := List.filterMap_eq_nil.mp h fr hfr
      by_cases hE : (fieldErrors env data fr).isEmpty
      · exact hE
      · simp [hE] at hz
    have hfilter :
        schema.filter (fun fr => (fieldErrors env data fr).isEmpty) =
          schema := List.filter_eq_self.mpr hall
    unfold validateAndSanitizeRequest
    rw [vasrGo_eq env data schema]
    dsimp only
    rw [h, hfilter]
    rfl
  · intro h
    refine ⟨createValidationError "request_validation"
      "Request validation failed" (encodeErrMap (errMapOf env data schema)),
      ?_, rfl, rfl, rfl⟩
    rcases hm : errMapOf env data schema with _ | ⟨p, em⟩
    · exact absurd hm h
    · unfold validateAndSanitizeRequest
      rw [vasrGo_eq env data schema]
      dsimp only
      rw [hm]
      rfl
  · intro data' hagree
    unfold validateAndSanitizeRequest
    rw [vasrGo_congr env schema data data' hagree]

/-- C5 (witness): the theorem applied to the spec's schema round-trip
example, with an extra input field that is ignored. -/
theorem validateAndSanitizeRequest_spec_witness :
    validateAndSanitizeRequest testEnv
      [("name", JSValue.str "  John Doe  "), ("extra", JSValue.num 5)]
      [("name", ⟨"name", {}, { required := true }⟩)] =
      .ok [("name", JSValue.str "John Doe")] := by
  have h := (validateAndSanitizeRequest_spec testEnv
    [("name", JSValue.str "  John Doe  "), ("extra", JSValue.num 5)]
    [("name", ⟨"name", {}, { required := true }⟩)]).1 (by rfl)
  rw [h]
  rfl

/-! ### C8 -/

theorem head_domain_core (l : List Char) (c : Char)
    (hc : (lowerL (trimL l)).head? = some c) : isJsSpace c = false := by
  rw [head_lowerL] at hc
  rcases ho : (trimL l).head? with _ | c0
  · rw [ho] at hc
    exact absurd hc (by simp)
  · rw [ho] at hc
    simp only [Option.map_some', Option.some.injEq] at hc
    rw [← hc, isJsSpace_asciiLower]
    exact trimL_head l c0 ho

theorem last_domain_core (l : List Char) (c : Char)
    (hc : (lowerL (trimL l)).getLast? = some c) : isJsSpace c = false := by
  rw [getLast_lowerL] at hc
  rcases ho : (trimL l).getLast? with _ | c0
  · rw [ho] at hc
    exact absurd hc (by simp)
  · rw [ho] at hc
    simp only [Option.map_some', Option.some.injEq] at hc
    rw [← hc, isJsSpace_asciiLower]
    exact trimL_getLast l c0 ho

theorem toDomain_idem (s : String) : toDomain (toDomain s) = toDomain s := by
  by_cases hsuf : msSuffix.data.isSuffixOf (lowerL (trimL s.data))
  · have hout : toDomain s = ⟨lowerL (trimL s.data)⟩ := by
      unfold toDomain
      rw [if_pos hsuf]
    rw [hout]
    have htrim : trimL (lowerL (trimL s.data)) = lowerL (trimL s.data) :=
      trimL_eq_self _ (head_domain_core s.data) (last_domain_core s.data)
    have hlow : lowerL (lowerL (trimL s.data)) = lowerL (trimL s.data) :=
      lowerL_idem _
    show (if msSuffix.data.isSuffixOf
        (lowerL (trimL (lowerL (trimL s.data)))) then
        (⟨lowerL (trimL (lowerL (trimL s.data)))⟩ : String)
      else ⟨lowerL (trimL (lowerL (trimL s.data))) ++ msSuffix.data⟩) =
      (⟨lowerL (trimL s.data)⟩ : String)
    rw [htrim, hlow, if_pos hsuf]
  · have hout : toDomain s = ⟨lowerL (trimL s.data) ++ msSuffix.data⟩ := by
      unfold toDomain
      rw [if_neg hsuf]
    rw [hout]
    have hH2 : ∀ c, (lowerL (trimL s.data) ++ msSuffix.data).head? = some c →
        isJsSpace c = false := by
      intro c hc
      rcases hdni : lowerL (trimL s.data) with _ | ⟨x, xs⟩
      · rw [hdni, List.nil_append] at hc
        have : c = '.' := by
          have hm : msSuffix.data.head? = some '.' := rfl
          rw [hm] at hc
          simpa using hc.symm
        rw [this]
        rfl
      · rw [hdni] at hc
        simp only [List.cons_append, List.head?_cons,
          Option.some.injEq] at hc
        rw [← hc]
        exact head_domain_core s.data x (by rw [hdni]; rfl)
    have hL2 : ∀ c,
        (lowerL (trimL s.data) ++ msSuffix.data).getLast? = some c →
        isJsSpace c = false := by
      intro c hc
      rw [List.getLast?_append_of_ne_nil (lowerL (trimL s.data))
        (by decide)] at hc
      have hm : msSuffix.data.getLast? = some 'm' := by rfl
      rw [hm] at hc
      have : c = 'm' := by simpa using hc.symm
      rw [this]
      rfl
    have htrim : trimL (lowerL (trimL s.data) ++ msSuffix.data) =
        lowerL (trimL s.data) ++ msSuffix.data :=
      trimL_eq_self _ hH2 hL2
    have hlow : lowerL (lowerL (trimL s.data) ++ msSuffix.data) =
        lowerL (trimL s.data) ++ msSuffix.data := by
      calc lowerL (lowerL (trimL s.data) ++ msSuffix.data) =
          lowerL (lowerL (trimL s.data)) ++ lowerL msSuffix.data :=
            List.map_append asciiLower _ _
        _ = lowerL (trimL s.data) ++ msSuffix.data := by
            rw [lowerL_idem]
            rfl
    have hsuf2 : msSuffix.data.isSuffixOf
        (lowerL (trimL s.data) ++ msSuffix.data) := by
      rw [List.isSuffixOf_iff_suffix]
      exact List.suffix_append _ _
    show (if msSuffix.data.isSuffixOf
        (lowerL (trimL (lowerL (trimL s.data) ++ msSuffix.data))) then
        (⟨lowerL (trimL (lowerL (trimL s.data) ++ msSuffix.data))⟩ : String)
      else ⟨lowerL (trimL (lowerL (trimL s.data) ++ msSuffix.data)) ++
        msSuffix.data⟩) =
      (⟨lowerL (trimL s.data) ++ msSuffix.data⟩ : String)
    rw [htrim, hlow, if_pos hsuf2]

/-- C8: the `shopifyDomain` branch trims and lower-cases the input and
appends the `.myshopify.com` suffix exactly when it is not already present
(`toDomain`); `sanitize('mystore', 'shopifyDomain')` is
`'mystore.myshopify.com'`; and the operation is idempotent: for every
string input, sanitizing the output again yields the same value. -/
theorem sanitizeInput_shopifyDomain_spec (env : JsEnv) (opts : SanOptions)
    (s : String) :
    sanitizeInput env (JSValue.str "mystore") "shopifyDomain" {} =
      JSValue.str "mystore.myshopify.com" ∧
    sanitizeInput env (JSValue.str s) "shopifyDomain" opts =
      JSValue.str (toDomain s) ∧
    sanitizeInput env (sanitizeInput env (JSValue.str s) "shopifyDomain" opts)
        "shopifyDomain" opts =
      sanitizeInput env (JSValue.str s) "shopifyDomain" opts := by
  refine ⟨rfl, rfl, ?_⟩
  show JSValue.str (toDomain (toDomain s)) = JSValue.str (toDomain s)
  rw [toDomain_idem]

/-! ### C3 -/

theorem floorQ_div (n d : Int) (hd : 0 < d) :
    ⌊(n : ℚ) / (d : ℚ)⌋ = n / d := by
  lift d to ℕ using hd.le with m
  exact_mod_cast Rat.floor_intCast_div_natCast n m

theorem floor_refill (a r : Int) :
    ⌊((a : ℚ) / 1000) * (r : ℚ)⌋ = (a * r) / 1000 := by
  rw [div_mul_eq_mul_div]
  have h1 : ((a : ℚ) * (r : ℚ)) = ((a * r : Int) : ℚ) := by push_cast; ring
  have h2 : ((1000 : ℚ)) = (((1000 : Int) : ℚ)) := by norm_num
  rw [h1, h2, floorQ_div (a * r) 1000 (by norm_num)]

theorem ceil_wait (a r : Int) (hr : 0 < r) :
    ⌈((a : ℚ) / (r : ℚ)) * 1000⌉ = jsCeilDiv (a * 1000) r := by
  unfold jsCeilDiv
  have h1 : ((a : ℚ) / (r : ℚ)) * 1000 =
      -(((-(a * 1000) : Int) : ℚ) / (r : ℚ)) := by
    push_cast
    ring
  rw [h1, Int.ceil_neg, floorQ_div _ _ hr]

theorem waitForAvailability_eq (st : Option Bucket) (now cost : Int) :
    waitForAvailability st now cost =
      (if (refillBucket (bucketOf st now) now).tokens < cost then
        { bucket := { refillBucket (bucketOf st now) now with
            tokens := min (refillBucket (bucketOf st now) now).maxTokens
              ((refillBucket (bucketOf st now) now).tokens + cost) }
        , waitedMs := jsCeilDiv
            ((cost - (refillBucket (bucketOf st now) now).tokens) * 1000)
            (refillBucket (bucketOf st now) now).refillRate
        , remainingTokens := min
            (refillBucket (bucketOf st now) now).maxTokens
            ((refillBucket (bucketOf st now) now).tokens + cost)
        , maxTokens := (refillBucket (bucketOf st now) now).maxTokens }
      else
        { bucket := { refillBucket (bucketOf st now) now with
            tokens := (refillBucket (bucketOf st now) now).tokens - cost }
        , waitedMs := 0
        , remainingTokens := (refillBucket (bucketOf st now) now).tokens - cost
        , maxTokens := (refillBucket (bucketOf st now) now).maxTokens }) :=
  rfl

theorem refillBucket_refillRate (b : Bucket) (now : Int) :
    (refillBucket b now).refillRate = b.refillRate := by
  by_cases h : 0 < ((now - b.lastRefill) * b.refillRate) / 1000
  · have he : refillBucket b now =
        { b with
            tokens := (min b.maxTokens
              (b.tokens + ((now - b.lastRefill) * b.refillRate) / 1000))
          , lastRefill := now } := by
      unfold refillBucket
      rw [if_pos h]
    rw [he]
  · have he : refillBucket b now = b := by
      unfold refillBucket
      rw [if_neg h]
    rw [he]

theorem spec_refill_eq (b : Bucket) (now : Int) :
    (if 0 < (⌊(((now - b.lastRefill : Int) : ℚ) / 1000) *
        ((b.refillRate : Int) : ℚ)⌋ : Int) then
      { b with
          tokens := (min b.maxTokens (b.tokens +
            ⌊(((now - b.lastRefill : Int) : ℚ) / 1000) *
              ((b.refillRate : Int) : ℚ)⌋))
        , lastRefill := now }
    else b) = refillBucket b now := by
  rw [floor_refill]
  rfl

/-- C3: for any bucket state (with the positive refill rate every reachable
bucket has) and any cost, the code's `waitForAvailability` computes exactly
the algorithm the specification describes (`specAcquire`, written with
exact rational arithmetic): refill `floor(elapsedSeconds * refillRate)`
capped at `maxTokens` updating `lastRefillAt` only when positive, then wait
`ceil((cost - tokens) / refillRate * 1000)` ms and grant
`min(maxTokens, tokens + cost)` without re-checking, or deduct immediately;
both branches return the bucket's remaining tokens and capacity, and a
freshly created bucket has `maxTokens = 40` and `refillRate = 2`. -/
theorem waitForAvailability_refines_specAcquire (st : Option Bucket)
    (now cost : Int) (hrate : 0 < (bucketOf st now).refillRate) :
    waitForAvailability st now cost = specAcquire st now cost ∧
    (freshBucket now).maxTokens = 40 ∧ (freshBucket now).refillRate = 2 ∧
    (waitForAvailability st now cost).remainingTokens =
      (waitForAvailability st now cost).bucket.tokens ∧
    (waitForAvailability st now cost).maxTokens =
      (waitForAvailability st now cost).bucket.maxTokens := by
  have hrate' : 0 < (refillBucket (bucketOf st now) now).refillRate := by
    rw [refillBucket_refillRate]
    exact hrate
  refine ⟨?_, rfl, rfl, ?_, ?_⟩
  · rw [waitForAvailability_eq]
    show _ = specAcquire st now cost
    simp only [specAcquire]
    rw [spec_refill_eq (bucketOf st now) now]
    rw [ceil_wait (cost - (refillBucket (bucketOf st now) now).tokens)
      ((refillBucket (bucketOf st now) now).refillRate) hrate']
  · rw [waitForAvailability_eq]
    split_ifs <;> rfl
  · rw [waitForAvailability_eq]
    split_ifs <;> rfl

/-- C3 (witness): the refinement theorem applied to a fresh bucket. -/
theorem waitForAvailability_refines_specAcquire_witness :
    0 < (bucketOf none 0).refillRate ∧
    waitForAvailability none 0 1 = specAcquire none 0 1 :=
  ⟨by decide,
   (waitForAvailability_refines_specAcquire none 0 1 (by decide)).1⟩
